import Mathlib

/-!
tgunzip: the chunked gzip decompression driver of uzlib.

A shallow embedding of `main` of `examples/tgunzip/tgunzip.c`, from the point where the
compressed object is in memory (`source`, `len`: line 99 on), and proofs about its size oracle,
buffer planner, chunk loop and outcome reporting. What precedes line 99 is not embedded and is
taken to have succeeded: the argument check, the library-wide table setup `uzlib_init()`, the
opening of the files, and the allocation and reading of `source`.

Conventions of the embedding.

* A byte is a `Nat` (an `unsigned char` holds a value below 256); `unsigned int` values are
  `Nat` with an explicit `% 4294967296` where the C arithmetic can wrap.
* Pointers into the output buffer (`d.dest`, `d.dest_limit`) are offsets from `dest`, the start
  of the buffer (`d.dest_start`); memory at and after `dest` is a function from offsets to bytes,
  so a write past the allocation is visible in the model.
* The inflate engine (`uzlib_uncompress_init`, `uzlib_gzip_parse_header`,
  `uzlib_uncompress_chksum`) is a parameter: a record of functions over an engine-private
  context.
* The run of `main` is returned as a record of what the process did: which source indices it
  read, the size it requested for the output buffer, the engine calls, the classified outcome
  and the exit status.
-/

set_option autoImplicit false

namespace Tgunzip

/-! ## Constants -/

/-- Output chunk size of the decompression loop (`#define OUT_CHUNK_SIZE 4096`). The comment
on the define allows 1 ("byte-by-byte decompression"), so the loop below takes the chunk size as
an argument and `main` is run with this value. -/
def OUT_CHUNK_SIZE : Nat := 4096

/-- Modelled from the spec: `uzlib.h` is not under src; the engine result code `OK`
("chunk boundary reached, more data expected"), the macro `TINF_OK`, whose value is 0. -/
def TINF_OK : Int := 0

/-- Modelled from the spec: `uzlib.h` is not under src; the engine result code `DONE`
("stream logically complete"), the macro `TINF_DONE`, whose value is 1. -/
def TINF_DONE : Int := 1

/-! ## Engine interface -/

/-- Memory at and after `dest`, addressed by byte offset from `dest`. -/
abbrev Mem := Nat → Nat

/-- What one call of `uzlib_uncompress_chksum(&d)` leaves behind: the result code, the new
`d.dest` (as an offset), the engine-private context and the memory. -/
structure EngineResult (σ : Type) where
  res : Int
  dest : Nat
  priv : σ
  mem : Mem

/-- The engine as `main` uses it. `σ` is everything of `struct uzlib_uncomp` that the driver
does not touch between calls (source cursor, bit buffer, checksum, window).
`uzlib_uncompress_init source source_limit` stands for `uzlib_uncompress_init(&d, NULL, 0)`
followed by the three assignments `d.source = source`, `d.source_limit = source + len - 4`,
`d.source_read_cb = NULL`. -/
structure Engine (σ : Type) where
  uzlib_uncompress_init : List Nat → Nat → σ
  uzlib_gzip_parse_header : σ → Int × σ
  uzlib_uncompress_chksum : σ → Nat → Nat → Mem → EngineResult σ

/-! ## Size oracle (lines 104-107) -/

/-- First assignment: `dlen = source[len - 1]`. -/
def dlen1 (source : List Nat) : Nat :=
  source.getD (source.length - 1) 0

/-- Second assignment: `dlen = 256*dlen + source[len - 2]`, in `unsigned int`. -/
def dlen2 (source : List Nat) : Nat :=
  (256 * dlen1 source + source.getD (source.length - 2) 0) % 4294967296

/-- Third assignment: `dlen = 256*dlen + source[len - 3]`, in `unsigned int`. -/
def dlen3 (source : List Nat) : Nat :=
  (256 * dlen2 source + source.getD (source.length - 3) 0) % 4294967296

/-- Fourth assignment: `dlen = 256*dlen + source[len - 4]`, in `unsigned int`; the declared
length printed by line 109. -/
def dlen4 (source : List Nat) : Nat :=
  (256 * dlen3 source + source.getD (source.length - 4) 0) % 4294967296

/-- The source indices read by lines 104-107, in program order. -/
def trailer_indices (len : Nat) : List Nat :=
  [len - 1, len - 2, len - 3, len - 4]

/-! ## Chunk loop (lines 148-159) -/

/-- One engine invocation as the loop made it: the remaining count `dlen` on entry to the
iteration, `chunk_len`, `d.dest` and `d.dest_limit` handed to the engine, the result code, and
`d.dest` and `dlen` afterwards. -/
structure Call where
  dlen : Nat
  chunk_len : Nat
  dest : Nat
  dest_limit : Nat
  res : Int
  dest_after : Nat
  dlen_after : Nat
  deriving DecidableEq

/-- The variables of `main` that the loop reads and writes: `dlen`, `d.dest`, `res`, the
engine-private part of `d`, the memory, and the log of engine calls made so far. -/
structure LoopState (σ : Type) where
  dlen : Nat
  dest : Nat
  res : Int
  priv : σ
  mem : Mem
  calls : List Call

/-- Line 151: `chunk_len = dlen < OUT_CHUNK_SIZE ? dlen : OUT_CHUNK_SIZE`. -/
def chunk_len (dlen chunk : Nat) : Nat :=
  if dlen < chunk then dlen else chunk

/-- One iteration of the loop body, lines 151-154: choose `chunk_len`, set
`d.dest_limit = d.dest + chunk_len`, call the engine, `dlen -= chunk_len` (in `unsigned int`). -/
def chunk_step {σ : Type} (E : Engine σ) (chunk : Nat) (s : LoopState σ) : LoopState σ :=
  let cl := chunk_len s.dlen chunk
  let dest_limit := s.dest + cl
  let r := E.uzlib_uncompress_chksum s.priv s.dest dest_limit s.mem
  let dlen := (s.dlen + 4294967296 - cl) % 4294967296
  { dlen := dlen, dest := r.dest, res := r.res, priv := r.priv, mem := r.mem,
    calls := s.calls ++ [{ dlen := s.dlen, chunk_len := cl, dest := s.dest,
                           dest_limit := dest_limit, res := r.res, dest_after := r.dest,
                           dlen_after := dlen }] }

/-- The loop `while (dlen) { ...; if (res != TINF_OK) break; }`. The first argument bounds the
number of iterations; `none` means the bound was reached with the loop still running. -/
def chunk_loop {σ : Type} (E : Engine σ) (chunk : Nat) : Nat → LoopState σ → Option (LoopState σ)
  | 0, s => if s.dlen = 0 then some s else none
  | fuel + 1, s =>
    if s.dlen = 0 then some s
    else
      let s' := chunk_step E chunk s
      if s'.res ≠ TINF_OK then some s' else chunk_loop E chunk fuel s'

/-! ## The driver -/

/-- How the process ended, in the words of the spec's error taxonomy. -/
inductive Outcome where
  /-- Text `exit_error("file too small")`. -/
  | MalformedInput
  /-- Text `exit_error("memory")` after `malloc(dlen)` returned NULL. -/
  | AllocationFailure
  /-- Text `Error parsing header: res`. -/
  | HeaderError (code : Int)
  /-- Text `Error during decompression: res`. -/
  | DecompressionError (code : Int)
  /-- Text `decompressed n bytes`, then `fwrite(dest, 1, outlen, fout)` of the given bytes. -/
  | Success (producedBytes : Nat) (sink : List Nat)
  deriving DecidableEq

/-- What `main` did. `indexed`: source indices read; `declared`: the value printed as
"decompressed length"; `malloc_dest`: size requested for the output buffer, if requested;
`initialised`: whether the decompressor was set up by `uzlib_uncompress_init` (the spec's
`initEngine(dictionary, dictionarySize)`); `header`: result of
`uzlib_gzip_parse_header`, if called; `budget`: value of `dlen` on entry to the loop, if
reached; `calls`: engine invocations; `status`: argument of `exit` or value returned by `main`. -/
structure Run where
  indexed : List Nat
  declared : Option Nat
  malloc_dest : Option Nat
  initialised : Bool
  header : Option Int
  budget : Option Nat
  calls : List Call
  outcome : Outcome
  status : Int
  deriving DecidableEq

/-- What the C library contributes: whether `malloc(dlen)` returns non-NULL, and the initial
(indeterminate) contents of the memory at the returned address. -/
structure Env where
  malloc_ok : Bool
  heap : Mem

/-- Bytes that `fwrite(dest, 1, outlen, fout)` hands to the sink. -/
def fwrite (mem : Mem) (outlen : Nat) : List Nat :=
  (List.range outlen).map mem

/-- The loop variables on entry to the loop: `dlen` after `dlen++`, `d.dest = dest` (line 142),
`res` as left by the header parse, no engine call made yet. -/
def loop_entry {σ : Type} (dlen : Nat) (res : Int) (priv : σ) (heap : Mem) : LoopState σ :=
  { dlen := dlen, dest := 0, res := res, priv := priv, mem := heap, calls := [] }

/-- Lines 127-135: initialise the engine on `source` with `source_limit = source + len - 4`
and parse the gzip header; the result code and the engine context after the parse. -/
def parse_header {σ : Type} (E : Engine σ) (source : List Nat) : Int × σ :=
  E.uzlib_gzip_parse_header (E.uzlib_uncompress_init source (source.length - 4))

/-- Lines 99-186 of `main`, with `len = source.length` (the buffer was allocated with
`malloc(len)` and filled by `fread`). The progress lines printed inside the loop are left out.
`none`: the loop did not end within `dlen` iterations (possible only for a chunk size of 0). -/
def main {σ : Type} (E : Engine σ) (chunk : Nat) (env : Env) (source : List Nat) : Option Run :=
  let len := source.length
  if len < 4 then
    some { indexed := [], declared := none, malloc_dest := none, initialised := false,
           header := none, budget := none, calls := [],
           outcome := .MalformedInput, status := 1 }
  else
    let dlen := dlen4 source
    let outlen := dlen
    let dlen := (dlen + 1) % 4294967296
    if env.malloc_ok = false then
      some { indexed := trailer_indices len, declared := some outlen, malloc_dest := some dlen,
             initialised := false, header := none, budget := none, calls := [],
             outcome := .AllocationFailure, status := 1 }
    else
      let hp := parse_header E source
      let res := hp.1
      if res ≠ TINF_OK then
        some { indexed := trailer_indices len, declared := some outlen, malloc_dest := some dlen,
               initialised := true, header := some res, budget := none, calls := [],
               outcome := .HeaderError res, status := 1 }
      else
        match chunk_loop E chunk dlen (loop_entry dlen res hp.2 env.heap) with
        | none => none
        | some s =>
          if s.res ≠ TINF_DONE then
            some { indexed := trailer_indices len, declared := some outlen,
                   malloc_dest := some dlen, initialised := true, header := some res,
                   budget := some dlen, calls := s.calls,
                   outcome := .DecompressionError s.res, status := -s.res }
          else
            some { indexed := trailer_indices len, declared := some outlen,
                   malloc_dest := some dlen, initialised := true, header := some res,
                   budget := some dlen, calls := s.calls,
                   outcome := .Success s.dest (fwrite s.mem outlen), status := 0 }

/-! ## Engine contracts used by the claims -/

/-- An engine that "only writes inside `[dest, destLimit)` and leaves `dest ≤ destLimit`":
called on a window, it leaves `d.dest` at or before `d.dest_limit` and leaves every byte outside
the window as it was. -/
def WellBehaved {σ : Type} (E : Engine σ) : Prop :=
  ∀ (priv : σ) (dest dest_limit : Nat) (mem : Mem), dest ≤ dest_limit →
    (E.uzlib_uncompress_chksum priv dest dest_limit mem).dest ≤ dest_limit ∧
    ∀ i, i < dest ∨ dest_limit ≤ i →
      (E.uzlib_uncompress_chksum priv dest dest_limit mem).mem i = mem i

/-- A conforming engine for the payload `P`, in the words of the round-trip claim. `pos`
reads off the engine context how many bytes of `P` have been produced. Called on a non-empty
window, the engine "writes the bytes of `P` in order into `[dest, destLimit)`": it produces
`min(window, bytes left)` bytes, the next ones of `P`, at `dest` onwards and changes nothing
else; it "returns OK exactly when dest reaches destLimit", and "returns DONE when it reaches
the end of the stream with dest < destLimit". -/
def Conforming {σ : Type} (E : Engine σ) (P : List Nat) (pos : σ → Nat) : Prop :=
  ∀ (priv : σ) (dest dest_limit : Nat) (mem : Mem), dest < dest_limit → pos priv ≤ P.length →
    (E.uzlib_uncompress_chksum priv dest dest_limit mem).dest =
      dest + min (dest_limit - dest) (P.length - pos priv) ∧
    pos (E.uzlib_uncompress_chksum priv dest dest_limit mem).priv =
      pos priv + min (dest_limit - dest) (P.length - pos priv) ∧
    ((E.uzlib_uncompress_chksum priv dest dest_limit mem).res = TINF_OK ↔
      (E.uzlib_uncompress_chksum priv dest dest_limit mem).dest = dest_limit) ∧
    ((E.uzlib_uncompress_chksum priv dest dest_limit mem).dest < dest_limit →
      (E.uzlib_uncompress_chksum priv dest dest_limit mem).res = TINF_DONE) ∧
    ∀ i, (E.uzlib_uncompress_chksum priv dest dest_limit mem).mem i =
      if dest ≤ i ∧ i < (E.uzlib_uncompress_chksum priv dest dest_limit mem).dest
      then P.getD (pos priv + (i - dest)) 0 else mem i

/-- Ceiling of `a / b`. -/
def ceil_div (a b : Nat) : Nat := (a + b - 1) / b

/-! ## A reference engine -/

/-- Modelled from the spec: the inflate engine is not under src. This is the engine the spec
describes for a valid stream whose payload is `P`: the private context is the number of payload
bytes emitted so far; a call "writes into `[dest, destLimit)`, advances `dest`", and returns
`OK` when the window is full ("chunk boundary reached, more data expected") and `DONE` when the
payload ends before the window is full ("stream logically complete"). -/
def streamEngine (P : List Nat) : Engine Nat where
  uzlib_uncompress_init := fun _ _ => 0
  uzlib_gzip_parse_header := fun s => (TINF_OK, s)
  uzlib_uncompress_chksum := fun pos dest dest_limit mem =>
    let n := min (dest_limit - dest) (P.length - pos)
    { res := if dest_limit - dest ≤ P.length - pos then TINF_OK else TINF_DONE,
      dest := dest + n,
      priv := pos + n,
      mem := fun i => if dest ≤ i ∧ i < dest + n then P.getD (pos + (i - dest)) 0 else mem i }

/-- A gzip file of the payload `hello world`: 10 header bytes, 13 bytes of deflate data, the
CRC-32 and the length trailer `0b 00 00 00`. -/
def helloGz : List Nat :=
  [0x1f, 0x8b, 0x08, 0x00, 0x00, 0x00, 0x00, 0x00, 0x00, 0x03,
   0xcb, 0x48, 0xcd, 0xc9, 0xc9, 0x57, 0x28, 0xcf, 0x2f, 0xca, 0x49, 0x01, 0x00,
   0x85, 0x11, 0x4a, 0x0d, 0x0b, 0x00, 0x00, 0x00]

/-- The bytes of `hello world`. -/
def helloWorld : List Nat :=
  [104, 101, 108, 108, 111, 32, 119, 111, 114, 108, 100]

/-- A gzip file whose length trailer is `ff ff ff ff`: 10 header bytes, an empty deflate
stream, a zero CRC-32, and the trailer. -/
def maxGz : List Nat :=
  [0x1f, 0x8b, 0x08, 0x00, 0x00, 0x00, 0x00, 0x00, 0x00, 0x03,
   0x03, 0x00,
   0x00, 0x00, 0x00, 0x00, 0xff, 0xff, 0xff, 0xff]

/-- A gzip file of the two-byte payload `ab` whose length trailer was changed to 0. -/
def understatedGz : List Nat :=
  [0x1f, 0x8b, 0x08, 0x00, 0x00, 0x00, 0x00, 0x00, 0x00, 0x03,
   0x4b, 0x4c, 0x02, 0x00,
   0x6d, 0x48, 0x83, 0x9e, 0x00, 0x00, 0x00, 0x00]

/-- A gzip file of the two-byte payload `ab` whose length trailer was changed to 5. -/
def overstatedGz : List Nat :=
  [0x1f, 0x8b, 0x08, 0x00, 0x00, 0x00, 0x00, 0x00, 0x00, 0x03,
   0x4b, 0x4c, 0x02, 0x00,
   0x6d, 0x48, 0x83, 0x9e, 0x05, 0x00, 0x00, 0x00]

/-- An environment in which `malloc` succeeds and fresh memory reads as `0xAA`. -/
def env0 : Env := { malloc_ok := true, heap := fun _ => 0xAA }

/-- The run of `main` on `overstatedGz` with the reference engine for `ab`: one call with a
6-byte window, which writes 2 bytes and returns `TINF_DONE`; 5 bytes go to the sink. -/
def overstatedRun : Run :=
  { indexed := [21, 20, 19, 18], declared := some 5, malloc_dest := some 6,
    initialised := true, header := some 0, budget := some 6,
    calls := [{ dlen := 6, chunk_len := 6, dest := 0, dest_limit := 6, res := 1,
                dest_after := 2, dlen_after := 0 }],
    outcome := .Success 2 [0x61, 0x62, 0xAA, 0xAA, 0xAA], status := 0 }

/-- The run of `main` on `helloGz` with the reference engine and the chunk size 4096: one
engine call with a 12-byte window, which writes 11 bytes and returns `TINF_DONE`. -/
def helloRun : Run :=
  { indexed := [30, 29, 28, 27], declared := some 11, malloc_dest := some 12,
    initialised := true, header := some 0, budget := some 12,
    calls := [{ dlen := 12, chunk_len := 12, dest := 0, dest_limit := 12, res := 1,
                dest_after := 11, dlen_after := 0 }],
    outcome := .Success 11 helloWorld, status := 0 }

/-! ## Basic facts about one iteration -/

theorem chunk_step_res {σ : Type} (E : Engine σ) (chunk : Nat) (s : LoopState σ) :
    (chunk_step E chunk s).res =
      (E.uzlib_uncompress_chksum s.priv s.dest (s.dest + chunk_len s.dlen chunk) s.mem).res := rfl

theorem chunk_step_dest {σ : Type} (E : Engine σ) (chunk : Nat) (s : LoopState σ) :
    (chunk_step E chunk s).dest =
      (E.uzlib_uncompress_chksum s.priv s.dest (s.dest + chunk_len s.dlen chunk) s.mem).dest := rfl

theorem chunk_step_priv {σ : Type} (E : Engine σ) (chunk : Nat) (s : LoopState σ) :
    (chunk_step E chunk s).priv =
      (E.uzlib_uncompress_chksum s.priv s.dest (s.dest + chunk_len s.dlen chunk) s.mem).priv := rfl

theorem chunk_step_mem {σ : Type} (E : Engine σ) (chunk : Nat) (s : LoopState σ) :
    (chunk_step E chunk s).mem =
      (E.uzlib_uncompress_chksum s.priv s.dest (s.dest + chunk_len s.dlen chunk) s.mem).mem := rfl

theorem chunk_step_dlen_raw {σ : Type} (E : Engine σ) (chunk : Nat) (s : LoopState σ) :
    (chunk_step E chunk s).dlen =
      (s.dlen + 4294967296 - chunk_len s.dlen chunk) % 4294967296 := rfl

theorem chunk_step_calls {σ : Type} (E : Engine σ) (chunk : Nat) (s : LoopState σ) :
    (chunk_step E chunk s).calls = s.calls ++
      [{ dlen := s.dlen, chunk_len := chunk_len s.dlen chunk, dest := s.dest,
         dest_limit := s.dest + chunk_len s.dlen chunk,
         res := (chunk_step E chunk s).res, dest_after := (chunk_step E chunk s).dest,
         dlen_after := (chunk_step E chunk s).dlen }] := rfl

theorem chunk_len_le (dlen chunk : Nat) : chunk_len dlen chunk ≤ dlen := by
  unfold chunk_len; split <;> omega

theorem chunk_len_le_chunk (dlen chunk : Nat) : chunk_len dlen chunk ≤ chunk := by
  unfold chunk_len; split <;> omega

theorem chunk_len_eq_min (dlen chunk : Nat) : chunk_len dlen chunk = min dlen chunk := by
  unfold chunk_len; split <;> omega

theorem chunk_len_pos (dlen chunk : Nat) (hd : dlen ≠ 0) (hc : 1 ≤ chunk) :
    1 ≤ chunk_len dlen chunk := by
  unfold chunk_len; split <;> omega

/-- The `unsigned int` subtraction `dlen -= chunk_len` never wraps. -/
theorem chunk_step_dlen {σ : Type} (E : Engine σ) (chunk : Nat) (s : LoopState σ)
    (h : s.dlen < 4294967296) :
    (chunk_step E chunk s).dlen = s.dlen - chunk_len s.dlen chunk := by
  have := chunk_len_le s.dlen chunk
  rw [chunk_step_dlen_raw]; omega

/-! ## Reasoning rules for the loop -/

/-- Invariant rule with exit information: an invariant of the loop head, preserved by every
iteration that returns `TINF_OK`, holds when the loop exits on `dlen = 0`; on a `break` the
final state is one iteration after a state satisfying it. -/
theorem chunk_loop_rule {σ : Type} (E : Engine σ) (chunk : Nat) (Inv : LoopState σ → Prop)
    (hstep : ∀ s, Inv s → s.dlen ≠ 0 → (chunk_step E chunk s).res = TINF_OK →
      Inv (chunk_step E chunk s)) :
    ∀ (fuel : Nat) (s s' : LoopState σ), Inv s → chunk_loop E chunk fuel s = some s' →
      (Inv s' ∧ s'.dlen = 0) ∨
      (∃ t, Inv t ∧ t.dlen ≠ 0 ∧ s' = chunk_step E chunk t ∧ s'.res ≠ TINF_OK) := by
  intro fuel
  induction fuel with
  | zero =>
    intro s s' hI h
    unfold chunk_loop at h
    split at h
    · cases h; exact Or.inl ⟨hI, by assumption⟩
    · cases h
  | succ n ih =>
    intro s s' hI h
    unfold chunk_loop at h
    split at h
    · cases h; exact Or.inl ⟨hI, by assumption⟩
    · rename_i hd
      dsimp only at h
      split at h
      · rename_i hr
        cases h
        exact Or.inr ⟨s, hI, hd, rfl, hr⟩
      · rename_i hr
        have hr' : (chunk_step E chunk s).res = TINF_OK := by
          by_contra hne; exact hr hne
        exact ih _ _ (hstep s hI hd hr') h

/-- Plain invariant rule: what every iteration preserves holds of the final state. -/
theorem chunk_loop_inv {σ : Type} (E : Engine σ) (chunk : Nat) (Inv : LoopState σ → Prop)
    (hstep : ∀ s, Inv s → s.dlen ≠ 0 → Inv (chunk_step E chunk s))
    (fuel : Nat) (s s' : LoopState σ) (hI : Inv s) (h : chunk_loop E chunk fuel s = some s') :
    Inv s' := by
  rcases chunk_loop_rule E chunk Inv (fun t ht hd _ => hstep t ht hd) fuel s s' hI h with
    ⟨h1, _⟩ | ⟨t, ht, hd, rfl, _⟩
  · exact h1
  · exact hstep t ht hd

/-- Termination: with a chunk size of at least 1 the loop ends within `dlen` iterations. -/
theorem chunk_loop_total {σ : Type} (E : Engine σ) (chunk : Nat) (hchunk : 1 ≤ chunk) :
    ∀ (fuel : Nat) (s : LoopState σ), s.dlen ≤ fuel → s.dlen < 4294967296 →
      ∃ s', chunk_loop E chunk fuel s = some s' := by
  intro fuel
  induction fuel with
  | zero =>
    intro s h _
    exact ⟨s, by unfold chunk_loop; simp; omega⟩
  | succ n ih =>
    intro s h h32
    unfold chunk_loop
    split
    · exact ⟨s, rfl⟩
    · rename_i hd
      dsimp only
      split
      · exact ⟨_, rfl⟩
      · have h1 := chunk_step_dlen E chunk s h32
        have h2 := chunk_len_pos s.dlen chunk hd hchunk
        exact ih (chunk_step E chunk s) (by omega) (by omega)

/-! ## The paths through `main` -/

/-- Short input: `exit_error("file too small")` is the only thing that happens. -/
theorem main_short {σ : Type} (E : Engine σ) (chunk : Nat) (env : Env) (source : List Nat)
    (h : source.length < 4) :
    main E chunk env source =
      some { indexed := [], declared := none, malloc_dest := none, initialised := false,
             header := none, budget := none, calls := [],
             outcome := .MalformedInput, status := 1 } := by
  unfold main; simp [h]

/-- The path through the loop: once the loop has ended in state `s`, the run is classified by
`s.res` alone. -/
theorem main_of_loop {σ : Type} (E : Engine σ) (chunk : Nat) (env : Env) (source : List Nat)
    (h4 : 4 ≤ source.length) (hm : env.malloc_ok = true)
    (hh : (parse_header E source).1 = TINF_OK) (s : LoopState σ)
    (hs : chunk_loop E chunk ((dlen4 source + 1) % 4294967296)
      (loop_entry ((dlen4 source + 1) % 4294967296) TINF_OK (parse_header E source).2 env.heap)
        = some s) :
    main E chunk env source =
      some { indexed := trailer_indices source.length, declared := some (dlen4 source),
             malloc_dest := some ((dlen4 source + 1) % 4294967296), initialised := true,
             header := some TINF_OK, budget := some ((dlen4 source + 1) % 4294967296),
             calls := s.calls,
             outcome := if s.res ≠ TINF_DONE then .DecompressionError s.res
                        else .Success s.dest (fwrite s.mem (dlen4 source)),
             status := if s.res ≠ TINF_DONE then -s.res else 0 } := by
  have h4' : ¬ source.length < 4 := by omega
  unfold main
  simp only [h4', if_false, hm, hh]
  simp only [ne_eq, not_true_eq_false, if_false, hs]
  by_cases hr : s.res = TINF_DONE <;> simp [hr]

/-- Every completed run of `main` is one of: the three early exits (short input, failed
allocation, header error), or the classification of a final loop state. -/
theorem main_cases {σ : Type} (E : Engine σ) (chunk : Nat) (env : Env) (source : List Nat)
    (run : Run) (h : main E chunk env source = some run) :
    (source.length < 4 ∧
      run = { indexed := [], declared := none, malloc_dest := none, initialised := false,
              header := none, budget := none, calls := [],
              outcome := .MalformedInput, status := 1 }) ∨
    (4 ≤ source.length ∧ env.malloc_ok = false ∧
      run = { indexed := trailer_indices source.length, declared := some (dlen4 source),
              malloc_dest := some ((dlen4 source + 1) % 4294967296),
              initialised := false, header := none, budget := none, calls := [],
              outcome := .AllocationFailure, status := 1 }) ∨
    (4 ≤ source.length ∧ env.malloc_ok = true ∧ (parse_header E source).1 ≠ TINF_OK ∧
      run = { indexed := trailer_indices source.length, declared := some (dlen4 source),
              malloc_dest := some ((dlen4 source + 1) % 4294967296),
              initialised := true, header := some (parse_header E source).1, budget := none,
              calls := [], outcome := .HeaderError (parse_header E source).1, status := 1 }) ∨
    (∃ s, 4 ≤ source.length ∧ env.malloc_ok = true ∧ (parse_header E source).1 = TINF_OK ∧
      chunk_loop E chunk ((dlen4 source + 1) % 4294967296)
        (loop_entry ((dlen4 source + 1) % 4294967296) TINF_OK (parse_header E source).2 env.heap)
          = some s ∧
      run = { indexed := trailer_indices source.length, declared := some (dlen4 source),
              malloc_dest := some ((dlen4 source + 1) % 4294967296), initialised := true,
              header := some TINF_OK, budget := some ((dlen4 source + 1) % 4294967296),
              calls := s.calls,
              outcome := if s.res ≠ TINF_DONE then .DecompressionError s.res
                         else .Success s.dest (fwrite s.mem (dlen4 source)),
              status := if s.res ≠ TINF_DONE then -s.res else 0 }) := by
  by_cases h4 : source.length < 4
  · rw [main_short E chunk env source h4] at h
    cases h; exact Or.inl ⟨h4, rfl⟩
  · by_cases hm : env.malloc_ok = false
    · unfold main at h
      simp only [h4, if_false, hm, if_true] at h
      cases h; exact Or.inr (Or.inl ⟨by omega, hm, rfl⟩)
    · have hm' : env.malloc_ok = true := by simpa using hm
      by_cases hh : (parse_header E source).1 = TINF_OK
      · cases hs : chunk_loop E chunk ((dlen4 source + 1) % 4294967296)
          (loop_entry ((dlen4 source + 1) % 4294967296) TINF_OK (parse_header E source).2
            env.heap) with
        | none =>
          unfold main at h
          simp only [h4, if_false, hm', hh] at h
          simp [hs] at h
        | some s =>
          rw [main_of_loop E chunk env source (by omega) hm' hh s hs] at h
          cases h
          exact Or.inr (Or.inr (Or.inr ⟨s, by omega, hm', hh, rfl, rfl⟩))
      · unfold main at h
        simp only [h4, if_false, hm'] at h
        simp only [ne_eq, hh, not_false_eq_true, if_true] at h
        simp at h
        cases h; exact Or.inr (Or.inr (Or.inl ⟨by omega, hm', hh, rfl⟩))

/-- The value `dlen` has after line 107 fits an `unsigned int`. -/
theorem dlen4_lt (source : List Nat) : dlen4 source < 4294967296 := by
  unfold dlen4; omega

/-- With a chunk size of at least 1, `main` terminates on every input with every engine. -/
theorem main_total {σ : Type} (E : Engine σ) (chunk : Nat) (hchunk : 1 ≤ chunk) (env : Env)
    (source : List Nat) : ∃ run, main E chunk env source = some run := by
  by_cases h4 : source.length < 4
  · exact ⟨_, main_short E chunk env source h4⟩
  · by_cases hm : env.malloc_ok = false
    · unfold main
      simp only [h4, if_false, hm, if_true]
      exact ⟨_, rfl⟩
    · have hm' : env.malloc_ok = true := by simpa using hm
      by_cases hh : (parse_header E source).1 = TINF_OK
      · obtain ⟨s, hs⟩ := chunk_loop_total E chunk hchunk ((dlen4 source + 1) % 4294967296)
          (loop_entry ((dlen4 source + 1) % 4294967296) TINF_OK (parse_header E source).2
            env.heap) (Nat.le_refl _) (Nat.mod_lt _ (by decide))
        exact ⟨_, main_of_loop E chunk env source (by omega) hm' hh s hs⟩
      · unfold main
        simp only [h4, if_false, hm']
        simp only [ne_eq, hh, not_false_eq_true, if_true]
        simp

/-! ## Size oracle -/

/-- Every byte read from a well-formed buffer is below 256 (an index past the end reads the
default 0). -/
theorem getD_byte (s : List Nat) (hb : ∀ b ∈ s, b < 256) (i : Nat) : s.getD i 0 < 256 := by
  by_cases h : i < s.length
  · rw [List.getD_eq_getElem s 0 h]
    exact hb _ (List.getElem_mem h)
  · rw [List.getD_eq_default s 0 (by omega)]
    decide

/-- Claim C1 (size oracle). For every byte sequence of length at least 4, the four assignments
to `dlen` compute the little-endian value of the last four bytes; that value and every
intermediate `256*dlen + byte` are below 2^32, so no assignment wraps; and it is the declared
length `main` prints. -/
theorem size_oracle_little_endian (s : List Nat) (hL : 4 ≤ s.length) (hb : ∀ b ∈ s, b < 256) :
    dlen4 s = s.getD (s.length - 4) 0 + 2 ^ 8 * s.getD (s.length - 3) 0
                + 2 ^ 16 * s.getD (s.length - 2) 0 + 2 ^ 24 * s.getD (s.length - 1) 0 ∧
    dlen4 s < 2 ^ 32 ∧
    256 * dlen1 s + s.getD (s.length - 2) 0 < 2 ^ 32 ∧
    256 * dlen2 s + s.getD (s.length - 3) 0 < 2 ^ 32 ∧
    256 * dlen3 s + s.getD (s.length - 4) 0 < 2 ^ 32 ∧
    (∀ (σ : Type) (E : Engine σ) (chunk : Nat) (env : Env) (run : Run),
      main E chunk env s = some run → run.declared = some (dlen4 s)) := by
  have h1 := getD_byte s hb (s.length - 1)
  have h2 := getD_byte s hb (s.length - 2)
  have h3 := getD_byte s hb (s.length - 3)
  have h4 := getD_byte s hb (s.length - 4)
  refine ⟨?_, ?_, ?_, ?_, ?_, ?_⟩
  · unfold dlen4 dlen3 dlen2 dlen1; omega
  · unfold dlen4; omega
  · unfold dlen1; omega
  · unfold dlen2 dlen1; omega
  · unfold dlen3 dlen2 dlen1; omega
  · intro σ E chunk env run h
    rcases main_cases E chunk env s run h with
      ⟨h', _⟩ | ⟨_, _, rfl⟩ | ⟨_, _, _, rfl⟩ | ⟨t, _, _, _, _, rfl⟩
    · omega
    · rfl
    · rfl
    · rfl

/-- Every `unsigned int` value is the declared length of some buffer: the trailer is not
constrained by the rest of the input. -/
theorem dlen4_surjective (d : Nat) (hd : d < 4294967296) :
    ∃ s : List Nat, 4 ≤ s.length ∧ (∀ b ∈ s, b < 256) ∧ dlen4 s = d := by
  refine ⟨[d % 256, d / 256 % 256, d / 65536 % 256, d / 16777216 % 256], by simp, ?_, ?_⟩
  · intro b hb
    simp only [List.mem_cons, List.mem_singleton, List.not_mem_nil, or_false] at hb
    omega
  · simp only [dlen4, dlen3, dlen2, dlen1, List.length_cons, List.length_nil]
    simp only [List.getD_cons_zero, List.getD_cons_succ, Nat.reduceAdd, Nat.reduceSub]
    omega

/-- Witness for C1: the gzip file of `hello world` declares 11 bytes. -/
theorem size_oracle_little_endian_witness :
    4 ≤ helloGz.length ∧ (∀ b ∈ helloGz, b < 256) ∧
    dlen4 helloGz = 11 + 2 ^ 8 * 0 + 2 ^ 16 * 0 + 2 ^ 24 * 0 :=
  ⟨by decide, by decide,
   (size_oracle_little_endian helloGz (by decide) (by decide)).1⟩

/-- The reference run, by evaluation. -/
theorem main_hello : main (streamEngine helloWorld) OUT_CHUNK_SIZE env0 helloGz = some helloRun := by
  decide

/-! ## Short input -/

/-- Claim C6 (short-input rejection). For a length below 4, `main` ends with the "file too
small" error and status 1, having read no source byte, requested no output buffer, and neither
initialised nor called the engine. For a length of at least 4 the four trailer indices
`len-1 .. len-4` are inside the buffer, they are the indices read, and no run ends with that
error. -/
theorem short_input_rejected {σ : Type} (E : Engine σ) (chunk : Nat) (env : Env)
    (source : List Nat) :
    (source.length < 4 →
      main E chunk env source =
        some { indexed := [], declared := none, malloc_dest := none, initialised := false,
               header := none, budget := none, calls := [],
               outcome := .MalformedInput, status := 1 }) ∧
    (4 ≤ source.length →
      trailer_indices source.length =
        [source.length - 1, source.length - 2, source.length - 3, source.length - 4] ∧
      (∀ i ∈ trailer_indices source.length, i < source.length) ∧
      (∀ run, main E chunk env source = some run →
        run.outcome ≠ .MalformedInput ∧ run.indexed = trailer_indices source.length)) := by
  refine ⟨main_short E chunk env source, fun h4 => ⟨rfl, ?_, ?_⟩⟩
  · intro i hi
    simp only [trailer_indices, List.mem_cons, List.mem_singleton, List.not_mem_nil,
      or_false] at hi
    omega
  · intro run h
    rcases main_cases E chunk env source run h with
      ⟨h', _⟩ | ⟨_, _, rfl⟩ | ⟨_, _, _, rfl⟩ | ⟨t, _, _, _, _, rfl⟩
    · omega
    · exact ⟨by simp, rfl⟩
    · exact ⟨by simp, rfl⟩
    · refine ⟨?_, rfl⟩
      dsimp only
      split <;> simp

/-- Witness for C6: a three-byte input is rejected before anything else happens. -/
theorem short_input_rejected_witness :
    [0x1f, 0x8b, 0x08].length < 4 ∧
    main (streamEngine helloWorld) OUT_CHUNK_SIZE env0 [0x1f, 0x8b, 0x08] =
      some { indexed := [], declared := none, malloc_dest := none, initialised := false,
             header := none, budget := none, calls := [],
             outcome := .MalformedInput, status := 1 } :=
  ⟨by decide,
   (short_input_rejected (streamEngine helloWorld) OUT_CHUNK_SIZE env0 [0x1f, 0x8b, 0x08]).1
     (by decide)⟩

/-! ## Buffer planner -/

/-- The first engine call sees the budget the loop was entered with. -/
theorem chunk_loop_first_call {σ : Type} (E : Engine σ) (chunk fuel B : Nat) (res : Int)
    (priv : σ) (heap : Mem) (s : LoopState σ)
    (h : chunk_loop E chunk fuel (loop_entry B res priv heap) = some s) :
    ∀ c, s.calls.head? = some c → c.dlen = B := by
  have key := chunk_loop_inv E chunk
    (fun t => (t.calls = [] → t.dlen = B) ∧ ∀ c, t.calls.head? = some c → c.dlen = B)
    (by
      intro t ⟨h1, h2⟩ _
      refine ⟨?_, ?_⟩
      · intro hnil
        rw [chunk_step_calls] at hnil
        simp at hnil
      · intro c hc
        rw [chunk_step_calls] at hc
        cases hcalls : t.calls with
        | nil =>
          rw [hcalls] at hc
          simp at hc
          rw [← hc]
          exact h1 hcalls
        | cons a l =>
          rw [hcalls] at hc
          simp at hc
          exact h2 c (by rw [hcalls]; simp [hc]))
    fuel (loop_entry B res priv heap) s ⟨fun _ => rfl, by intro c hc; simp [loop_entry] at hc⟩ h
  exact key.2

/-- Claim C5 (buffer planner). For every declared length `d` (an `unsigned int`, so
`d = 2^32 - 1` included), `outlen` keeps `d`, and the size requested for the output buffer and
the budget the chunk loop starts with are both `d + 1` as `dlen++` computes it in
`unsigned int`, that is `(d + 1) mod 2^32`: this is `d + 1` whenever `d < 2^32 - 1`, and `0` at
`d = 2^32 - 1`. -/
theorem buffer_planner {σ : Type} (E : Engine σ) (chunk : Nat) (env : Env) (source : List Nat)
    (run : Run) (h4 : 4 ≤ source.length) (h : main E chunk env source = some run) :
    dlen4 source < 2 ^ 32 ∧
    run.declared = some (dlen4 source) ∧
    run.malloc_dest = some ((dlen4 source + 1) % 2 ^ 32) ∧
    (env.malloc_ok = true → (parse_header E source).1 = TINF_OK →
      run.budget = some ((dlen4 source + 1) % 2 ^ 32)) ∧
    (∀ c, run.calls.head? = some c → c.dlen = (dlen4 source + 1) % 2 ^ 32) ∧
    (∀ p sink, run.outcome = .Success p sink → sink.length = dlen4 source) ∧
    (dlen4 source < 2 ^ 32 - 1 → (dlen4 source + 1) % 2 ^ 32 = dlen4 source + 1) ∧
    (dlen4 source = 2 ^ 32 - 1 → (dlen4 source + 1) % 2 ^ 32 = 0) := by
  have hlt := dlen4_lt source
  refine ⟨by omega, ?_, ?_, ?_, ?_, ?_, by intro h; omega, by intro h; omega⟩
  · rcases main_cases E chunk env source run h with
      ⟨h', _⟩ | ⟨_, _, rfl⟩ | ⟨_, _, _, rfl⟩ | ⟨t, _, _, _, _, rfl⟩
    · omega
    all_goals rfl
  · rcases main_cases E chunk env source run h with
      ⟨h', _⟩ | ⟨_, _, rfl⟩ | ⟨_, _, _, rfl⟩ | ⟨t, _, _, _, _, rfl⟩
    · omega
    all_goals rfl
  · intro hm hh
    rcases main_cases E chunk env source run h with
      ⟨h', _⟩ | ⟨_, hm', rfl⟩ | ⟨_, _, hh', rfl⟩ | ⟨t, _, _, _, _, rfl⟩
    · omega
    · rw [hm] at hm'; cases hm'
    · exact absurd hh hh'
    · rfl
  · intro c hc
    rcases main_cases E chunk env source run h with
      ⟨h', _⟩ | ⟨_, _, rfl⟩ | ⟨_, _, _, rfl⟩ | ⟨t, _, _, _, ht, rfl⟩
    · omega
    · simp at hc
    · simp at hc
    · exact chunk_loop_first_call E chunk _ _ _ _ _ t ht c hc
  · intro p sink ho
    rcases main_cases E chunk env source run h with
      ⟨h', _⟩ | ⟨_, _, rfl⟩ | ⟨_, _, _, rfl⟩ | ⟨t, _, _, _, ht, rfl⟩
    · omega
    · simp at ho
    · simp at ho
    · dsimp only at ho
      split at ho
      · simp at ho
      · simp only [Outcome.Success.injEq] at ho
        rw [← ho.2]
        simp [fwrite]

/-- Witness for C5: on the gzip file of `hello world` (declared length 11) the buffer request
and the loop budget are 12. -/
theorem buffer_planner_witness :
    4 ≤ helloGz.length ∧
    main (streamEngine helloWorld) OUT_CHUNK_SIZE env0 helloGz = some helloRun ∧
    helloRun.malloc_dest = some ((dlen4 helloGz + 1) % 2 ^ 32) ∧
    helloRun.malloc_dest = some 12 :=
  ⟨by decide, main_hello,
   (buffer_planner (streamEngine helloWorld) OUT_CHUNK_SIZE env0 helloGz helloRun
     (by decide) main_hello).2.2.1,
   rfl⟩

/-! ## Guard-byte invariant -/

/-- The reference engine is well behaved. -/
theorem streamEngine_wellBehaved (P : List Nat) : WellBehaved (streamEngine P) := by
  intro priv dest dest_limit mem hle
  refine ⟨?_, ?_⟩
  · show dest + min (dest_limit - dest) (P.length - priv) ≤ dest_limit
    omega
  · intro i hi
    show (if dest ≤ i ∧ i < dest + min (dest_limit - dest) (P.length - priv)
      then P.getD (priv + (i - dest)) 0 else mem i) = mem i
    rw [if_neg]
    omega

/-- Claim C3 (guard-byte invariant). For every trailer value `d` and every well-behaved engine:
each iteration preserves `(dest - destStart) + remaining ≤ d + 1`; in every run of the loop
entered with the budget of `main`, each engine invocation has
`dest ≤ destLimit ≤ d + 1` on entry and `dest ≤ destLimit` on return (offsets from
`destStart`), the final state satisfies the same bound, and no byte at offset `d + 1` or
beyond is ever changed; and the loop does end when the chunk size is at least 1. -/
theorem guard_byte_invariant {σ : Type} (E : Engine σ) (hwb : WellBehaved E)
    (chunk fuel d : Nat) (res : Int) (priv : σ) (heap : Mem) :
    (∀ s : LoopState σ, s.dlen < 2 ^ 32 → s.dlen ≠ 0 → s.dest + s.dlen ≤ d + 1 →
      (chunk_step E chunk s).dest + (chunk_step E chunk s).dlen ≤ d + 1) ∧
    (∀ s', chunk_loop E chunk fuel (loop_entry ((d + 1) % 2 ^ 32) res priv heap) = some s' →
      (∀ c ∈ s'.calls, c.dest ≤ c.dest_limit ∧ c.dest_limit ≤ d + 1 ∧
        c.dest_after ≤ c.dest_limit) ∧
      s'.dest + s'.dlen ≤ d + 1 ∧
      (∀ i, d + 1 ≤ i → s'.mem i = heap i)) ∧
    (1 ≤ chunk → (d + 1) % 2 ^ 32 ≤ fuel →
      ∃ s', chunk_loop E chunk fuel (loop_entry ((d + 1) % 2 ^ 32) res priv heap) = some s') := by
  refine ⟨?_, ?_, ?_⟩
  · intro s h32 _ hb
    have h1 := chunk_step_dlen E chunk s (by omega)
    have h2 := chunk_len_le s.dlen chunk
    have h3 := (hwb s.priv s.dest (s.dest + chunk_len s.dlen chunk) s.mem (by omega)).1
    rw [chunk_step_dest, h1]
    omega
  · intro s' h
    have key := chunk_loop_inv E chunk
      (fun t => t.dlen < 4294967296 ∧ t.dest + t.dlen ≤ d + 1 ∧
        (∀ c ∈ t.calls, c.dest ≤ c.dest_limit ∧ c.dest_limit ≤ d + 1 ∧
          c.dest_after ≤ c.dest_limit) ∧
        (∀ i, d + 1 ≤ i → t.mem i = heap i))
      (by
        intro t ⟨h32, hb, hc, hm⟩ _
        have h1 := chunk_step_dlen E chunk t h32
        have h2 := chunk_len_le t.dlen chunk
        have h3 := hwb t.priv t.dest (t.dest + chunk_len t.dlen chunk) t.mem (by omega)
        refine ⟨by omega, ?_, ?_, ?_⟩
        · rw [chunk_step_dest, h1]
          have := h3.1
          omega
        · intro c hcm
          rw [chunk_step_calls, List.mem_append, List.mem_singleton] at hcm
          rcases hcm with hcm | rfl
          · exact hc c hcm
          · refine ⟨by dsimp only; omega, by dsimp only; omega, ?_⟩
            dsimp only
            rw [chunk_step_dest]
            exact h3.1
        · intro i hi
          rw [chunk_step_mem, h3.2 i (Or.inr (by omega))]
          exact hm i hi)
      fuel (loop_entry ((d + 1) % 2 ^ 32) res priv heap) s'
      ⟨by show (d + 1) % 2 ^ 32 < 4294967296; omega,
       by show 0 + (d + 1) % 2 ^ 32 ≤ d + 1; omega,
       by intro c hc; simp [loop_entry] at hc,
       fun _ _ => rfl⟩ h
    exact ⟨key.2.2.1, key.2.1, key.2.2.2⟩
  · intro hchunk hfuel
    exact chunk_loop_total E chunk hchunk fuel _ hfuel
      (by show (d + 1) % 2 ^ 32 < 4294967296; omega)

/-- Witness for C3: the reference engine is well behaved, and byte-by-byte decompression of an
11-byte payload never moves `destLimit` past offset 12. -/
theorem guard_byte_invariant_witness :
    WellBehaved (streamEngine helloWorld) ∧
    ∃ s', chunk_loop (streamEngine helloWorld) 1 12
        (loop_entry ((11 + 1) % 2 ^ 32) TINF_OK 0 env0.heap) = some s' ∧
      ∀ c ∈ s'.calls, c.dest ≤ c.dest_limit ∧ c.dest_limit ≤ 11 + 1 ∧
        c.dest_after ≤ c.dest_limit :=
  ⟨streamEngine_wellBehaved helloWorld,
   by
    have h := guard_byte_invariant (streamEngine helloWorld)
      (streamEngine_wellBehaved helloWorld) 1 12 11 TINF_OK 0 env0.heap
    obtain ⟨s', hs'⟩ := h.2.2 (by decide) (by decide)
    exact ⟨s', hs', (h.2.1 s' hs').1⟩⟩

/-! ## Loop bound -/

/-- One iteration lowers the number of chunks still to request by exactly one. -/
theorem ceil_div_step (dlen chunk : Nat) (hd : dlen ≠ 0) (hc : 1 ≤ chunk) :
    ceil_div (dlen - chunk_len dlen chunk) chunk + 1 = ceil_div dlen chunk := by
  unfold ceil_div chunk_len
  split
  · rename_i hlt
    have e1 : dlen - dlen + chunk - 1 = chunk - 1 := by omega
    have e2 : dlen + chunk - 1 = (dlen - 1) + chunk := by omega
    rw [e1, e2, Nat.add_div_right _ (by omega), Nat.div_eq_of_lt (by omega),
      Nat.div_eq_of_lt (by omega)]
  · rename_i hge
    have e2 : dlen + chunk - 1 = (dlen - chunk + chunk - 1) + chunk := by omega
    rw [e2, Nat.add_div_right _ (by omega)]

/-- No chunk is left to request exactly when nothing remains. -/
theorem ceil_div_zero (chunk : Nat) (hc : 1 ≤ chunk) : ceil_div 0 chunk = 0 := by
  unfold ceil_div
  exact Nat.div_eq_of_lt (by omega)

/-- The number of chunks grows with the budget. -/
theorem ceil_div_mono (a b chunk : Nat) (h : a ≤ b) : ceil_div a chunk ≤ ceil_div b chunk := by
  unfold ceil_div
  exact Nat.div_le_div_right (by omega)

/-- The accounting of the loop: calls made plus chunks still to request is constant, the
requested sizes plus the remaining count is the budget, and every call requested
`min(remaining, chunk)`, at least 1 and at most the remaining count. -/
theorem chunk_loop_accounting {σ : Type} (E : Engine σ) (chunk : Nat) (hchunk : 1 ≤ chunk)
    (fuel B : Nat) (hB : B < 4294967296) (res : Int) (priv : σ) (heap : Mem)
    (s : LoopState σ) (h : chunk_loop E chunk fuel (loop_entry B res priv heap) = some s) :
    s.calls.length + ceil_div s.dlen chunk = ceil_div B chunk ∧
    (s.calls.map Call.chunk_len).sum + s.dlen = B ∧
    (∀ c ∈ s.calls, c.chunk_len = min c.dlen chunk ∧ 1 ≤ c.chunk_len ∧
      c.chunk_len ≤ c.dlen ∧ c.dlen_after + c.chunk_len = c.dlen ∧
      c.dest_limit = c.dest + c.chunk_len) := by
  have key := chunk_loop_inv E chunk
    (fun t => t.dlen < 4294967296 ∧
      t.calls.length + ceil_div t.dlen chunk = ceil_div B chunk ∧
      (t.calls.map Call.chunk_len).sum + t.dlen = B ∧
      (∀ c ∈ t.calls, c.chunk_len = min c.dlen chunk ∧ 1 ≤ c.chunk_len ∧
        c.chunk_len ≤ c.dlen ∧ c.dlen_after + c.chunk_len = c.dlen ∧
        c.dest_limit = c.dest + c.chunk_len))
    (by
      intro t ⟨h32, hn, hsum, hc⟩ hd
      have h1 := chunk_step_dlen E chunk t h32
      have h2 := chunk_len_le t.dlen chunk
      have h3 := ceil_div_step t.dlen chunk hd hchunk
      have h4 := chunk_len_pos t.dlen chunk hd hchunk
      refine ⟨by omega, ?_, ?_, ?_⟩
      · rw [chunk_step_calls, List.length_append, List.length_singleton, h1]
        omega
      · rw [chunk_step_calls, List.map_append, List.sum_append, h1]
        simp only [List.map_cons, List.map_nil, List.sum_cons, List.sum_nil]
        omega
      · intro c hcm
        rw [chunk_step_calls, List.mem_append, List.mem_singleton] at hcm
        rcases hcm with hcm | rfl
        · exact hc c hcm
        · dsimp only
          rw [h1]
          exact ⟨chunk_len_eq_min _ _, h4, h2, by omega, rfl⟩)
    fuel (loop_entry B res priv heap) s
    ⟨hB, by simp [loop_entry], by simp [loop_entry], by intro c hc; simp [loop_entry] at hc⟩ h
  exact key.2

/-- A loop that exits on `break` has a call whose result is not `TINF_OK`; so when every call
returned `TINF_OK` the loop ran until `dlen = 0`. -/
theorem chunk_loop_all_ok {σ : Type} (E : Engine σ) (chunk fuel : Nat) (s0 s : LoopState σ)
    (h : chunk_loop E chunk fuel s0 = some s) (hok : ∀ c ∈ s.calls, c.res = TINF_OK) :
    s.dlen = 0 := by
  rcases chunk_loop_rule E chunk (fun _ => True) (fun _ _ _ _ => trivial) fuel s0 s trivial h
    with ⟨_, h0⟩ | ⟨t, _, _, rfl, hne⟩
  · exact h0
  · have hlast := hok _ (by
      rw [chunk_step_calls]
      exact List.mem_append_right _ (List.mem_singleton.2 rfl))
    exact absurd hlast hne

/-- Claim C9 (loop bound), as amended. For every declared length `d`, every chunk size of at
least 1 and every engine, the chunk loop entered with the budget of `main` ends, after at most
`ceil((d + 1) / chunk)` engine invocations; each invocation requested
`chunk_len = min(remaining, chunk) ≥ 1` and the remaining count went down by exactly that,
without underflow; and if `d < 2^32 - 1` and every call returned `TINF_OK`, the loop made
exactly `ceil((d + 1) / chunk)` calls whose requested sizes sum to `d + 1`. -/
theorem chunk_loop_bound {σ : Type} (E : Engine σ) (chunk d : Nat) (hchunk : 1 ≤ chunk)
    (res : Int) (priv : σ) (heap : Mem) :
    ∃ s, chunk_loop E chunk ((d + 1) % 2 ^ 32)
        (loop_entry ((d + 1) % 2 ^ 32) res priv heap) = some s ∧
      s.calls.length ≤ ceil_div (d + 1) chunk ∧
      (∀ c ∈ s.calls, c.chunk_len = min c.dlen chunk ∧ 1 ≤ c.chunk_len ∧
        c.chunk_len ≤ c.dlen ∧ c.dlen_after + c.chunk_len = c.dlen ∧
        c.dest_limit = c.dest + c.chunk_len) ∧
      (d < 2 ^ 32 - 1 → (∀ c ∈ s.calls, c.res = TINF_OK) →
        s.calls.length = ceil_div (d + 1) chunk ∧
        (s.calls.map Call.chunk_len).sum = d + 1) := by
  have hB : (d + 1) % 2 ^ 32 < 4294967296 := by omega
  obtain ⟨s, hs⟩ := chunk_loop_total E chunk hchunk ((d + 1) % 2 ^ 32)
    (loop_entry ((d + 1) % 2 ^ 32) res priv heap) (Nat.le_refl _) hB
  obtain ⟨hn, hsum, hc⟩ := chunk_loop_accounting E chunk hchunk _ _ hB res priv heap s hs
  have hmono := ceil_div_mono ((d + 1) % 2 ^ 32) (d + 1) chunk (Nat.mod_le _ _)
  refine ⟨s, hs, by omega, hc, ?_⟩
  intro hd hok
  have h0 := chunk_loop_all_ok E chunk _ _ s hs hok
  have hmod : (d + 1) % 2 ^ 32 = d + 1 := by omega
  rw [h0, ceil_div_zero chunk hchunk, hmod] at hn
  rw [h0, hmod] at hsum
  exact ⟨by omega, by omega⟩

/-- Witness for C9: a declared length of 11 and a chunk size of 4 with the reference engine
for a 20-byte payload (every call returns `TINF_OK`): three calls, `ceil(12 / 4)`. -/
theorem chunk_loop_bound_witness :
    1 ≤ 4 ∧
    ∃ s, chunk_loop (streamEngine (List.replicate 20 7)) 4 ((11 + 1) % 2 ^ 32)
        (loop_entry ((11 + 1) % 2 ^ 32) TINF_OK 0 env0.heap) = some s ∧
      s.calls.length ≤ ceil_div (11 + 1) 4 ∧ ceil_div (11 + 1) 4 = 3 :=
  ⟨by decide,
   by
    obtain ⟨s, hs, hle, _⟩ := chunk_loop_bound (streamEngine (List.replicate 20 7)) 4 11
      (by decide) TINF_OK 0 env0.heap
    exact ⟨s, hs, hle, by decide⟩⟩

/-- Counterexample to C9 as stated: with the trailer `ff ff ff ff` (`d = 2^32 - 1`) and the
chunk size 4096, `main` enters the loop with the budget 0 and makes no engine call at all, so
every call (there is none) returned `TINF_OK`, yet `ceil((d + 1) / 4096)` is 1048576 and the
requested sizes sum to 0, not `d + 1`. -/
theorem chunk_loop_bound_fails_at_max :
    dlen4 maxGz = 2 ^ 32 - 1 ∧
    ∃ run, main (streamEngine []) OUT_CHUNK_SIZE env0 maxGz = some run ∧
      run.budget = some 0 ∧
      (∀ c ∈ run.calls, c.res = TINF_OK) ∧
      ¬ (run.calls.length = ceil_div (dlen4 maxGz + 1) OUT_CHUNK_SIZE ∧
         (run.calls.map Call.chunk_len).sum = dlen4 maxGz + 1) := by
  refine ⟨by decide, _, rfl, by decide, by decide, by decide⟩

/-! ## No retry -/

/-- The shape of the call log when the loop has ended: every call but the last returned
`TINF_OK`, and `res` and `d.dest` are as the last call left them (or as on entry, when no call
was made). -/
theorem chunk_loop_log {σ : Type} (E : Engine σ) (chunk fuel B : Nat) (res0 : Int)
    (priv : σ) (heap : Mem) (s : LoopState σ)
    (h : chunk_loop E chunk fuel (loop_entry B res0 priv heap) = some s) :
    (∀ c ∈ s.calls.dropLast, c.res = TINF_OK) ∧
    (∀ c, s.calls.getLast? = some c → s.res = c.res ∧ s.dest = c.dest_after) ∧
    (s.calls = [] → s.res = res0) := by
  have hstep : ∀ t : LoopState σ,
      (∀ c, (chunk_step E chunk t).calls.getLast? = some c →
        (chunk_step E chunk t).res = c.res ∧ (chunk_step E chunk t).dest = c.dest_after) ∧
      ((chunk_step E chunk t).calls = [] → (chunk_step E chunk t).res = res0) := by
    intro t
    refine ⟨?_, ?_⟩
    · intro c hc
      rw [chunk_step_calls, List.getLast?_concat] at hc
      cases hc
      exact ⟨rfl, rfl⟩
    · intro hnil
      rw [chunk_step_calls] at hnil
      simp at hnil
  rcases chunk_loop_rule E chunk
    (fun t => (∀ c ∈ t.calls, c.res = TINF_OK) ∧
      (∀ c, t.calls.getLast? = some c → t.res = c.res ∧ t.dest = c.dest_after) ∧
      (t.calls = [] → t.res = res0))
    (by
      intro t ⟨hok, _, _⟩ _ hr
      refine ⟨?_, (hstep t).1, (hstep t).2⟩
      intro c hc
      rw [chunk_step_calls, List.mem_append, List.mem_singleton] at hc
      rcases hc with hc | rfl
      · exact hok c hc
      · exact hr)
    fuel (loop_entry B res0 priv heap) s
    ⟨by intro c hc; simp [loop_entry] at hc, by intro c hc; simp [loop_entry] at hc,
     fun _ => rfl⟩ h with ⟨⟨hok, hl, hn⟩, _⟩ | ⟨t, ⟨hok, _, _⟩, _, rfl, _⟩
  · exact ⟨fun c hc => hok c (List.mem_of_mem_dropLast hc), hl, hn⟩
  · refine ⟨?_, (hstep t).1, (hstep t).2⟩
    intro c hc
    rw [chunk_step_calls, List.dropLast_concat] at hc
    exact hok c hc

/-- Claim C10 (no retry). Whatever the engine returns, `main` ends (chunk size at least 1) and
in its call log every call that is followed by another call returned `TINF_OK`: the first
result other than `TINF_OK` is the last call made. That result is the one classified: success
(status 0, output written) exactly when it is `TINF_DONE`, and otherwise
`DecompressionError` with that same code, the status being its negation. -/
theorem no_retry {σ : Type} (E : Engine σ) (chunk : Nat) (env : Env) (source : List Nat)
    (hchunk : 1 ≤ chunk) :
    ∃ run, main E chunk env source = some run ∧
      (∀ c ∈ run.calls.dropLast, c.res = TINF_OK) ∧
      (∀ pre c post, run.calls = pre ++ c :: post → c.res ≠ TINF_OK → post = []) ∧
      (∀ c, run.calls.getLast? = some c → c.res ≠ TINF_OK →
        (c.res = TINF_DONE →
          run.status = 0 ∧ ∃ sink, run.outcome = .Success c.dest_after sink) ∧
        (c.res ≠ TINF_DONE →
          run.outcome = .DecompressionError c.res ∧ run.status = -c.res)) := by
  obtain ⟨run, hrun⟩ := main_total E chunk hchunk env source
  have hsplit : ∀ l : List Call, (∀ c ∈ l.dropLast, c.res = TINF_OK) →
      ∀ pre c post, l = pre ++ c :: post → c.res ≠ TINF_OK → post = [] := by
    intro l hl pre c post he hne
    by_contra hpost
    apply hne
    apply hl
    rw [he, List.dropLast_append_of_ne_nil _ (by simp),
      List.dropLast_cons_of_ne_nil hpost]
    simp
  refine ⟨run, hrun, ?_⟩
  rcases main_cases E chunk env source run hrun with
    ⟨_, rfl⟩ | ⟨_, _, rfl⟩ | ⟨_, _, _, rfl⟩ | ⟨s, _, _, _, hs, rfl⟩
  · exact ⟨by simp, by simp, by simp⟩
  · exact ⟨by simp, by simp, by simp⟩
  · exact ⟨by simp, by simp, by simp⟩
  · obtain ⟨h1, h2, _⟩ := chunk_loop_log E chunk _ _ _ _ _ s hs
    refine ⟨h1, hsplit _ h1, ?_⟩
    intro c hc _
    obtain ⟨hres, hdest⟩ := h2 c hc
    dsimp only
    rw [hres, hdest]
    refine ⟨fun hd => ?_, fun hd => ?_⟩
    · simp [hd]
    · simp [hd]

/-- Witness for C10: byte-by-byte decompression of `hello world`; eleven calls return
`TINF_OK`, the twelfth returns `TINF_DONE` and is the last. -/
theorem no_retry_witness :
    (1 : Nat) ≤ 1 ∧
    ∃ run, main (streamEngine helloWorld) 1 env0 helloGz = some run ∧
      (∀ c ∈ run.calls.dropLast, c.res = TINF_OK) :=
  ⟨by decide,
   by
    obtain ⟨run, hrun, h, _⟩ := no_retry (streamEngine helloWorld) 1 env0 helloGz (by decide)
    exact ⟨run, hrun, h⟩⟩

/-! ## Outcome reporter -/

/-- Claim C7 (outcome reporter). In every completed run of `main`: if bytes are handed to the
sink, they are exactly `outlen` bytes, `outlen` being the declared length of the trailer, read
from offset 0 of the output buffer as the loop left it, whatever `d.dest - dest` is, and the
last engine call returned `TINF_DONE`; conversely a last call that returned `TINF_DONE` leads to
that write; and when the last call did not return `TINF_DONE` (or no call was made) nothing is
handed to the sink. -/
theorem outcome_reporter {σ : Type} (E : Engine σ) (chunk : Nat) (env : Env) (source : List Nat)
    (run : Run) (h : main E chunk env source = some run) :
    (∀ p sink, run.outcome = .Success p sink →
      sink.length = dlen4 source ∧ run.status = 0 ∧
      (∃ c, run.calls.getLast? = some c ∧ c.res = TINF_DONE ∧ c.dest_after = p) ∧
      ∃ s, chunk_loop E chunk ((dlen4 source + 1) % 2 ^ 32)
          (loop_entry ((dlen4 source + 1) % 2 ^ 32) TINF_OK (parse_header E source).2 env.heap)
            = some s ∧
        s.dest = p ∧ sink = (List.range (dlen4 source)).map s.mem) ∧
    (∀ c, run.calls.getLast? = some c → c.res = TINF_DONE →
      ∃ sink, run.outcome = .Success c.dest_after sink ∧ sink.length = dlen4 source) ∧
    ((∀ c, run.calls.getLast? = some c → c.res ≠ TINF_DONE) →
      ∀ p sink, run.outcome ≠ .Success p sink) := by
  have first : ∀ p sink, run.outcome = .Success p sink →
      sink.length = dlen4 source ∧ run.status = 0 ∧
      (∃ c, run.calls.getLast? = some c ∧ c.res = TINF_DONE ∧ c.dest_after = p) ∧
      ∃ s, chunk_loop E chunk ((dlen4 source + 1) % 2 ^ 32)
          (loop_entry ((dlen4 source + 1) % 2 ^ 32) TINF_OK (parse_header E source).2 env.heap)
            = some s ∧
        s.dest = p ∧ sink = (List.range (dlen4 source)).map s.mem := by
    intro p sink ho
    rcases main_cases E chunk env source run h with
      ⟨_, rfl⟩ | ⟨_, _, rfl⟩ | ⟨_, _, _, rfl⟩ | ⟨s, _, _, _, hs, rfl⟩
    · simp at ho
    · simp at ho
    · simp at ho
    · obtain ⟨_, h2, h3⟩ := chunk_loop_log E chunk _ _ _ _ _ s hs
      dsimp only at ho ⊢
      by_cases hd : s.res = TINF_DONE
      · simp only [hd, ne_eq, not_true_eq_false, if_false, Outcome.Success.injEq] at ho ⊢
        obtain ⟨hp, hsink⟩ := ho
        refine ⟨by rw [← hsink]; simp [fwrite], trivial, ?_, s, hs, hp, ?_⟩
        · cases hl : s.calls.getLast? with
          | none =>
            have hnil := List.getLast?_eq_none_iff.1 hl
            have := h3 hnil
            rw [hd] at this
            exact absurd this (by decide)
          | some c =>
            obtain ⟨hr, hdest⟩ := h2 c hl
            exact ⟨c, rfl, by rw [← hr]; exact hd, by rw [← hdest]; exact hp⟩
        · rw [← hsink]; rfl
      · simp [hd] at ho
  refine ⟨first, ?_, ?_⟩
  · intro c hc hd
    rcases main_cases E chunk env source run h with
      ⟨_, rfl⟩ | ⟨_, _, rfl⟩ | ⟨_, _, _, rfl⟩ | ⟨s, _, _, _, hs, rfl⟩
    · simp at hc
    · simp at hc
    · simp at hc
    · obtain ⟨_, h2, _⟩ := chunk_loop_log E chunk _ _ _ _ _ s hs
      obtain ⟨hr, hdest⟩ := h2 c hc
      dsimp only
      rw [hr, hdest]
      exact ⟨fwrite s.mem (dlen4 source), by simp [hd], by simp [fwrite]⟩
  · intro hall p sink ho
    obtain ⟨_, _, ⟨c, hc, hd, _⟩, _⟩ := first p sink ho
    exact hall c hc hd

/-- Witness for C7: the payload `ab` behind a trailer that declares 5 bytes. The engine
produces 2 bytes and returns `TINF_DONE`; the sink receives 5 bytes, the last three being
whatever the buffer held. -/
theorem outcome_reporter_witness :
    main (streamEngine [0x61, 0x62]) OUT_CHUNK_SIZE env0 overstatedGz = some overstatedRun ∧
    [0x61, 0x62, 0xAA, 0xAA, 0xAA].length = dlen4 overstatedGz :=
  ⟨by decide,
   ((outcome_reporter (streamEngine [0x61, 0x62]) OUT_CHUNK_SIZE env0 overstatedGz
      overstatedRun (by decide)).1 2 [0x61, 0x62, 0xAA, 0xAA, 0xAA] rfl).1⟩

/-! ## Round trip -/

/-- The reference engine for `P` is a conforming engine for `P`. -/
theorem streamEngine_conforming (P : List Nat) : Conforming (streamEngine P) P id := by
  intro priv dest dest_limit mem hlt hpos
  refine ⟨rfl, rfl, ?_, ?_, fun i => rfl⟩
  · show (if dest_limit - dest ≤ P.length - priv then TINF_OK else TINF_DONE) = TINF_OK ↔
      dest + min (dest_limit - dest) (P.length - priv) = dest_limit
    split
    · constructor
      · intro _; omega
      · intro _; rfl
    · constructor
      · intro h; exact absurd h (by decide)
      · intro h; omega
  · show dest + min (dest_limit - dest) (P.length - priv) < dest_limit →
      (if dest_limit - dest ≤ P.length - priv then TINF_OK else TINF_DONE) = TINF_DONE
    intro h
    rw [if_neg (by omega)]

/-- Reading back a buffer that holds `P` gives `P`. -/
theorem fwrite_payload (P : List Nat) (mem : Mem) (h : ∀ i, i < P.length → mem i = P.getD i 0) :
    fwrite mem P.length = P := by
  apply List.ext_getElem
  · simp [fwrite]
  · intro n h1 h2
    simp only [fwrite, List.getElem_map, List.getElem_range]
    rw [h n h2, List.getD_eq_getElem P 0 h2]

/-- The loop against a conforming engine: entered with the budget `P.length + 1`, it ends, with
`TINF_DONE`, `d.dest` at offset `P.length`, and `P` in the first `P.length` bytes. -/
theorem chunk_loop_conforming {σ : Type} (E : Engine σ) (P : List Nat) (pos : σ → Nat)
    (hconf : Conforming E P pos) (chunk : Nat) (hchunk : 1 ≤ chunk)
    (hd : P.length < 2 ^ 32 - 1) (priv : σ) (hpos : pos priv = 0) (heap : Mem) :
    ∃ s, chunk_loop E chunk ((P.length + 1) % 4294967296)
        (loop_entry ((P.length + 1) % 4294967296) TINF_OK priv heap) = some s ∧
      s.res = TINF_DONE ∧ s.dest = P.length ∧ ∀ i, i < P.length → s.mem i = P.getD i 0 := by
  have hB : (P.length + 1) % 4294967296 = P.length + 1 := by omega
  obtain ⟨s, hs⟩ := chunk_loop_total E chunk hchunk ((P.length + 1) % 4294967296)
    (loop_entry ((P.length + 1) % 4294967296) TINF_OK priv heap) (Nat.le_refl _)
    (by show (P.length + 1) % 4294967296 < 4294967296; omega)
  refine ⟨s, hs, ?_⟩
  have hmem : ∀ t : LoopState σ, t.dlen ≠ 0 → pos t.priv = t.dest → t.dest ≤ P.length →
      (∀ i, i < t.dest → t.mem i = P.getD i 0) →
      ∀ i, i < (chunk_step E chunk t).dest → (chunk_step E chunk t).mem i = P.getD i 0 := by
    intro t hdl hp hle hm i hi
    have h4 := chunk_len_pos t.dlen chunk hdl hchunk
    obtain ⟨_, _, _, _, c5⟩ := hconf t.priv t.dest (t.dest + chunk_len t.dlen chunk) t.mem
      (by omega) (by omega)
    rw [chunk_step_dest] at hi
    rw [chunk_step_mem, c5 i]
    by_cases hlo : t.dest ≤ i
    · rw [if_pos ⟨hlo, hi⟩, hp]
      congr 1
      omega
    · rw [if_neg (by omega)]
      exact hm i (by omega)
  rcases chunk_loop_rule E chunk
    (fun t => t.dlen < 4294967296 ∧ pos t.priv = t.dest ∧ t.dest + t.dlen = P.length + 1 ∧
      t.dest ≤ P.length ∧ ∀ i, i < t.dest → t.mem i = P.getD i 0)
    (by
      intro t ⟨h32, hp, hsum, hle, hm⟩ hdl hr
      have h1 := chunk_step_dlen E chunk t h32
      have h2 := chunk_len_le t.dlen chunk
      have h4 := chunk_len_pos t.dlen chunk hdl hchunk
      obtain ⟨c1, c2, c3, _, _⟩ := hconf t.priv t.dest (t.dest + chunk_len t.dlen chunk) t.mem
        (by omega) (by omega)
      rw [chunk_step_res] at hr
      have c6 := c3.1 hr
      refine ⟨by omega, ?_, ?_, ?_, hmem t hdl hp hle hm⟩
      · rw [chunk_step_priv, chunk_step_dest, c2, c1, hp]
      · rw [chunk_step_dest, h1]; omega
      · rw [chunk_step_dest]; omega)
    _ (loop_entry ((P.length + 1) % 4294967296) TINF_OK priv heap) s
    ⟨by show (P.length + 1) % 4294967296 < 4294967296; omega, hpos,
     by show 0 + (P.length + 1) % 4294967296 = P.length + 1; omega,
     Nat.zero_le _, by intro i hi; exact absurd hi (Nat.not_lt_zero i)⟩ hs
    with ⟨⟨_, _, hsum, hle, _⟩, h0⟩ | ⟨t, ⟨h32, hp, hsum, hle, hm⟩, hdl, rfl, hne⟩
  · omega
  · have h2 := chunk_len_le t.dlen chunk
    have h4 := chunk_len_pos t.dlen chunk hdl hchunk
    obtain ⟨c1, _, c3, c4, _⟩ := hconf t.priv t.dest (t.dest + chunk_len t.dlen chunk) t.mem
      (by omega) (by omega)
    rw [chunk_step_res] at hne
    have c7 : (E.uzlib_uncompress_chksum t.priv t.dest (t.dest + chunk_len t.dlen chunk)
        t.mem).dest ≠ t.dest + chunk_len t.dlen chunk := fun h => hne (c3.2 h)
    have c8 : (chunk_step E chunk t).dest = P.length := by
      rw [chunk_step_dest]; omega
    refine ⟨?_, c8, ?_⟩
    · rw [chunk_step_res]
      exact c4 (by omega)
    · intro i hi
      exact hmem t hdl hp hle hm i (by omega)

/-- Driving `main` on a valid container: shared by the round-trip and the chunk-size claims. -/
theorem main_conforming {σ : Type} (E : Engine σ) (P : List Nat) (pos : σ → Nat)
    (chunk : Nat) (env : Env) (source : List Nat)
    (hchunk : 1 ≤ chunk) (h4 : 4 ≤ source.length) (htr : dlen4 source = P.length)
    (hd : P.length < 2 ^ 32 - 1) (hm : env.malloc_ok = true)
    (hh : (parse_header E source).1 = TINF_OK) (hpos : pos (parse_header E source).2 = 0)
    (hconf : Conforming E P pos) :
    ∃ run, main E chunk env source = some run ∧
      run.outcome = .Success P.length P ∧ run.status = 0 ∧
      ∃ c, run.calls.getLast? = some c ∧ c.res = TINF_DONE ∧ c.dest_after = P.length := by
  obtain ⟨s, hs, hres, hdest, hmem⟩ := chunk_loop_conforming E P pos hconf chunk hchunk hd
    (parse_header E source).2 hpos env.heap
  rw [← htr] at hs
  have hrun := main_of_loop E chunk env source h4 hm hh s hs
  obtain ⟨_, h2, h3⟩ := chunk_loop_log E chunk _ _ _ _ _ s hs
  refine ⟨_, hrun, ?_, ?_, ?_⟩
  · simp only [hres, ne_eq, not_true_eq_false, if_false, hdest, htr, fwrite_payload P s.mem hmem]
  · simp [hres]
  · cases hl : s.calls.getLast? with
    | none =>
      have := h3 (List.getLast?_eq_none_iff.1 hl)
      rw [hres] at this
      exact absurd this (by decide)
    | some c =>
      obtain ⟨hr, hde⟩ := h2 c hl
      exact ⟨c, rfl, by rw [← hr]; exact hres, by rw [← hde]; exact hdest⟩

/-- Claim C2 (round trip). For every payload `P` whose length `d < 2^32 - 1` is the trailer
value, every chunk size of at least 1 and every conforming engine for `P` (header parsed with
`TINF_OK`, allocation successful): the chunk loop of `main` ends with the result `TINF_DONE`,
with `dest - destStart = d` and with the first `d` bytes of the output buffer equal to `P`; and
`main` ends having made that last call, reporting `d` produced bytes, handing exactly `P` to the
sink, with status 0. -/
theorem round_trip {σ : Type} (E : Engine σ) (P : List Nat) (pos : σ → Nat)
    (chunk : Nat) (env : Env) (source : List Nat)
    (hchunk : 1 ≤ chunk) (h4 : 4 ≤ source.length) (htr : dlen4 source = P.length)
    (hd : P.length < 2 ^ 32 - 1) (hm : env.malloc_ok = true)
    (hh : (parse_header E source).1 = TINF_OK) (hpos : pos (parse_header E source).2 = 0)
    (hconf : Conforming E P pos) :
    (∃ s, chunk_loop E chunk ((dlen4 source + 1) % 2 ^ 32)
        (loop_entry ((dlen4 source + 1) % 2 ^ 32) (parse_header E source).1
          (parse_header E source).2 env.heap) = some s ∧
      s.res = TINF_DONE ∧ s.dest = P.length ∧
      (List.range P.length).map s.mem = P) ∧
    (∃ run, main E chunk env source = some run ∧
      run.outcome = .Success P.length P ∧ run.status = 0 ∧
      ∃ c, run.calls.getLast? = some c ∧ c.res = TINF_DONE ∧ c.dest_after = P.length) := by
  refine ⟨?_, main_conforming E P pos chunk env source hchunk h4 htr hd hm hh hpos hconf⟩
  obtain ⟨s, hs, hres, hdest, hmem⟩ := chunk_loop_conforming E P pos hconf chunk hchunk hd
    (parse_header E source).2 hpos env.heap
  rw [htr, hh]
  exact ⟨s, hs, hres, hdest, fwrite_payload P s.mem hmem⟩

/-- Witness for C2, the concrete scenario of the spec: the container of `hello world` with
trailer 11; the driver reports 11 produced bytes, the sink receives `hello world`, status 0. -/
theorem round_trip_witness :
    (1 ≤ OUT_CHUNK_SIZE ∧ 4 ≤ helloGz.length ∧ dlen4 helloGz = helloWorld.length ∧
      helloWorld.length = 11 ∧ Conforming (streamEngine helloWorld) helloWorld id) ∧
    ∃ run, main (streamEngine helloWorld) OUT_CHUNK_SIZE env0 helloGz = some run ∧
      run.outcome = .Success 11 helloWorld ∧ run.status = 0 ∧
      ∃ c, run.calls.getLast? = some c ∧ c.res = TINF_DONE ∧ c.dest_after = 11 :=
  ⟨⟨by decide, by decide, by decide, by decide, streamEngine_conforming helloWorld⟩,
   (round_trip (streamEngine helloWorld) helloWorld id OUT_CHUNK_SIZE env0 helloGz
     (by decide) (by decide) (by decide) (by decide) rfl rfl rfl
     (streamEngine_conforming helloWorld)).2⟩

/-! ## Chunk-size independence -/

/-- Claim C8 (chunk-size independence). For every valid container (payload `P` of length
`d < 2^32 - 1` equal to the trailer value, conforming engine for `P` as in the round-trip
claim), the runs of `main` with chunk size 1 and with chunk size 4096 both end with the last
engine result `TINF_DONE`, the same `producedBytes`, the same status, and the same bytes, `P`,
handed to the sink. -/
theorem chunk_size_independence {σ : Type} (E : Engine σ) (P : List Nat) (pos : σ → Nat)
    (env : Env) (source : List Nat)
    (h4 : 4 ≤ source.length) (htr : dlen4 source = P.length)
    (hd : P.length < 2 ^ 32 - 1) (hm : env.malloc_ok = true)
    (hh : (parse_header E source).1 = TINF_OK) (hpos : pos (parse_header E source).2 = 0)
    (hconf : Conforming E P pos) :
    ∃ r1 r4096, main E 1 env source = some r1 ∧ main E 4096 env source = some r4096 ∧
      r1.outcome = r4096.outcome ∧ r1.status = r4096.status ∧
      r1.outcome = .Success P.length P ∧
      (∃ c, r1.calls.getLast? = some c ∧ c.res = TINF_DONE) ∧
      (∃ c, r4096.calls.getLast? = some c ∧ c.res = TINF_DONE) := by
  obtain ⟨r1, hr1, ho1, hs1, c1, hc1, hd1, _⟩ :=
    main_conforming E P pos 1 env source (by decide) h4 htr hd hm hh hpos hconf
  obtain ⟨r2, hr2, ho2, hs2, c2, hc2, hd2, _⟩ :=
    main_conforming E P pos 4096 env source (by decide) h4 htr hd hm hh hpos hconf
  exact ⟨r1, r2, hr1, hr2, by rw [ho1, ho2], by rw [hs1, hs2], ho1, ⟨c1, hc1, hd1⟩,
    ⟨c2, hc2, hd2⟩⟩

/-- Witness for C8: `hello world` decompressed byte by byte and in one 4096-byte chunk. -/
theorem chunk_size_independence_witness :
    (4 ≤ helloGz.length ∧ dlen4 helloGz = helloWorld.length ∧
      Conforming (streamEngine helloWorld) helloWorld id) ∧
    ∃ r1 r4096, main (streamEngine helloWorld) 1 env0 helloGz = some r1 ∧
      main (streamEngine helloWorld) 4096 env0 helloGz = some r4096 ∧
      r1.outcome = r4096.outcome ∧ r1.status = r4096.status ∧
      r1.outcome = .Success helloWorld.length helloWorld :=
  ⟨⟨by decide, by decide, streamEngine_conforming helloWorld⟩,
   by
    obtain ⟨r1, r2, h1, h2, h3, h4, h5, _⟩ :=
      chunk_size_independence (streamEngine helloWorld) helloWorld id env0 helloGz
        (by decide) (by decide) (by decide) rfl rfl rfl (streamEngine_conforming helloWorld)
    exact ⟨r1, r2, h1, h2, h3, h4, h5⟩⟩

/-! ## Exit status -/

/-- The status in every completed run: it is 0 exactly when output was written, or when
`main` reported `Error during decompression: 0`. -/
theorem exit_status_zero_iff {σ : Type} (E : Engine σ) (chunk : Nat) (env : Env)
    (source : List Nat) (run : Run) (h : main E chunk env source = some run) :
    run.status = 0 ↔
      (∃ p sink, run.outcome = .Success p sink) ∨ run.outcome = .DecompressionError 0 := by
  rcases main_cases E chunk env source run h with
    ⟨_, rfl⟩ | ⟨_, _, rfl⟩ | ⟨_, _, _, rfl⟩ | ⟨s, _, _, _, hs, rfl⟩
  · simp
  · simp
  · simp
  · dsimp only
    by_cases hd : s.res = TINF_DONE
    · simp [hd]
    · simp [hd]

/-- Claim C4 (exit status), evaluated where it fails. The payload `ab` behind a trailer that
declares 0 bytes: the budget is 1, the single engine call fills its one-byte window and returns
`TINF_OK`, the loop ends on `dlen = 0`, `main` reports `Error during decompression: 0`, writes
nothing, and exits with `exit(-res)`, which is status 0. -/
theorem exit_status_zero_without_done :
    main (streamEngine [0x61, 0x62]) OUT_CHUNK_SIZE env0 understatedGz =
      some { indexed := [21, 20, 19, 18], declared := some 0, malloc_dest := some 1,
             initialised := true, header := some 0, budget := some 1,
             calls := [{ dlen := 1, chunk_len := 1, dest := 0, dest_limit := 1, res := 0,
                         dest_after := 1, dlen_after := 0 }],
             outcome := .DecompressionError 0, status := 0 } := by
  decide

end Tgunzip
